import Mathlib

/-!
Verification of the drone FAQ chatbot's matching/scoring engine
(`src/app.py`: `SimilarityMatcher`, `KeywordMatcher`, `HybridMatcher`,
`FAQDatabase.find_best_match`, `FAQDatabase.get_response`,
`ChatbotAPI.process_query`, `validate_input`).

Strings are modelled as `List Char`; Python floats are modelled as exact
rationals `ℚ` (every score in the program is a ratio of small integers
combined by fixed decimal weights).
-/

/-- Python whitespace characters as stripped by `str.strip()`:
space, tab, newline, carriage return, vertical tab, form feed
(restricted to ASCII, which covers every string in the repository). -/
def isPySpace (c : Char) : Bool :=
  c = ' ' || c = '\t' || c = '\n' || c = '\r' || c = '\x0b' || c = '\x0c'

/-- Python `s.lower()`: character-wise lower-casing (ASCII). -/
def lower (s : List Char) : List Char := s.map Char.toLower

/-- Python `s.strip()`: remove leading and trailing whitespace. -/
def pyStrip (s : List Char) : List Char :=
  ((s.dropWhile isPySpace).reverse.dropWhile isPySpace).reverse

/-- Does `needle` occur at the very start of `hay`? (helper for `hasSubstr`). -/
def prefixAt : List Char → List Char → Bool
  | [], _ => true
  | _ :: _, [] => false
  | c :: cs, d :: ds => c = d && prefixAt cs ds

/-- Python `needle in hay` on strings: substring containment
(the empty needle is contained in every string, as in Python). -/
def hasSubstr (hay needle : List Char) : Bool :=
  prefixAt needle hay ||
    (match hay with
     | [] => false
     | _ :: t => hasSubstr t needle)

/-- Python `validate_input` (src/app.py line 35):
`bool(user_input and user_input.strip())` — true exactly when the input is
non-empty and not only whitespace. -/
def validate_input (s : List Char) : Bool :=
  !(s.isEmpty) && !((pyStrip s).isEmpty)

lemma dropWhile_head_false {α : Type} {p : α → Bool} {l t : List α} {c : α}
    (h : l.dropWhile p = c :: t) : p c = false := by
  induction l with
  | nil => simp at h
  | cons a l ih =>
    rw [List.dropWhile_cons] at h
    by_cases hp : p a = true
    · rw [if_pos hp] at h
      exact ih h
    · rw [if_neg hp] at h
      cases h
      simpa using hp

lemma dropWhile_idem {α : Type} (p : α → Bool) (l : List α) :
    (l.dropWhile p).dropWhile p = l.dropWhile p := by
  cases h : l.dropWhile p with
  | nil => simp
  | cons c t => rw [List.dropWhile_cons, if_neg (by simp [dropWhile_head_false h])]

lemma pyStrip_form {s : List Char} {c : Char} {t : List Char}
    (h : s.dropWhile isPySpace = c :: t) :
    pyStrip s = c :: (t.reverse.dropWhile isPySpace).reverse := by
  unfold pyStrip
  rw [h, List.reverse_cons, List.dropWhile_append]
  have hc : isPySpace c = false := dropWhile_head_false h
  by_cases he : (t.reverse.dropWhile isPySpace).isEmpty
  · rw [if_pos he]
    rw [List.isEmpty_iff] at he
    simp [List.dropWhile_cons, hc, he]
  · rw [if_neg he]
    simp

lemma pyStrip_eq_nil_iff {s : List Char} :
    pyStrip s = [] ↔ ∀ c ∈ s, isPySpace c = true := by
  constructor
  · intro h c hc
    by_contra hpc
    cases hdw : s.dropWhile isPySpace with
    | nil =>
      rw [List.dropWhile_eq_nil_iff] at hdw
      exact hpc (hdw c hc)
    | cons a t => rw [pyStrip_form hdw] at h; simp at h
  · intro h
    unfold pyStrip
    rw [List.dropWhile_eq_nil_iff.mpr h]
    rfl

lemma pyStrip_idem (s : List Char) : pyStrip (pyStrip s) = pyStrip s := by
  cases hdw : s.dropWhile isPySpace with
  | nil =>
    have h0 : pyStrip s = [] := by unfold pyStrip; rw [hdw]; rfl
    rw [h0]
    rfl
  | cons c t =>
    rw [pyStrip_form hdw]
    have hc : isPySpace c = false := dropWhile_head_false hdw
    unfold pyStrip
    rw [List.dropWhile_cons, if_neg (by simp [hc]), List.reverse_cons,
      List.reverse_reverse, List.dropWhile_append, dropWhile_idem]
    cases hwe : t.reverse.dropWhile isPySpace with
    | nil => simp [List.dropWhile_cons, hc]
    | cons w0 w =>
      have hw0 : isPySpace w0 = false := dropWhile_head_false hwe
      simp

lemma validate_input_eq_true_iff {s : List Char} :
    validate_input s = true ↔ pyStrip s ≠ [] := by
  unfold validate_input
  constructor
  · intro h hn
    rw [Bool.and_eq_true] at h
    have := h.2
    rw [hn] at this
    simp at this
  · intro h
    have hs : s ≠ [] := by
      intro hn
      exact h (by rw [hn]; rfl)
    simp [List.isEmpty_iff, hs, h]

/-- One FAQ catalogue record (src/app.py `FAQ_DATA` entries):
a dictionary with `question`, `answer` and `keywords` fields. -/
structure FAQItem where
  question : List Char
  answer : List Char
  keywords : List (List Char)
  deriving DecidableEq, Repr

namespace KeywordMatcher

/-- Model of `KeywordMatcher.calculate_score` (src/app.py lines 160-177):
lower-case the query, count the keywords contained in it as substrings and
divide by the number of keywords; `0.0` for an empty keyword list. -/
def calculate_score (user_input : List Char) (faq_item : FAQItem) : ℚ :=
  if faq_item.keywords = [] then 0
  else
    ((faq_item.keywords.countP fun k => hasSubstr (lower user_input) k : ℕ) : ℚ) /
      ((faq_item.keywords.length : ℕ) : ℚ)

end KeywordMatcher

/-- Length of the longest common prefix of two strings
(helper for the longest-common-substring search). -/
def matchLen : List Char → List Char → ℕ
  | c :: cs, d :: ds => if c = d then matchLen cs ds + 1 else 0
  | _, _ => 0

/-- All candidate common-substring anchors of `a` and `b`: for every pair of
start positions `(i, j)` the triple `(i, j, matchLen (a.drop i) (b.drop j))`. -/
def lcsCands (a b : List Char) : List (ℕ × ℕ × ℕ) :=
  (List.range a.length).flatMap fun i =>
    (List.range b.length).map fun j => (i, j, matchLen (a.drop i) (b.drop j))

/-- Pick the candidate with the strictly largest third component
(earliest candidate wins ties), starting from `(0, 0, 0)`. -/
def pickLongest (l : List (ℕ × ℕ × ℕ)) : ℕ × ℕ × ℕ :=
  l.foldl (fun best c => if best.2.2 < c.2.2 then c else best) (0, 0, 0)

/-- Modelled from the spec: the "find the longest common contiguous
substring" step of the gestalt pattern matching algorithm (spec section 4.1)
implemented by `difflib.SequenceMatcher.find_longest_match`, whose source is
not part of this repository.  Returns `(i, j, k)`: the match starts at `i`
in `a`, at `j` in `b`, and has length `k` (`(0, 0, 0)` when there is no
common substring). -/
def find_longest_match (a b : List Char) : ℕ × ℕ × ℕ :=
  pickLongest (lcsCands a b)

/-- Modelled from the spec: total matched length of the gestalt pattern
matching recursion (spec section 4.1) implemented by
`difflib.SequenceMatcher.get_matching_blocks`, whose source is not part of
this repository: take the longest common contiguous substring, then recurse
on the left and right remainders.  Structural recursion on a fuel argument
(any fuel at least `a.length` gives the fixpoint, see `gestaltTotal`). -/
def gestaltTotalFuel : ℕ → List Char → List Char → ℕ
  | 0, _, _ => 0
  | fuel + 1, a, b =>
    let m := find_longest_match a b
    if m.2.2 = 0 then 0
    else
      gestaltTotalFuel fuel (a.take m.1) (b.take m.2.1) + m.2.2 +
        gestaltTotalFuel fuel (a.drop (m.1 + m.2.2)) (b.drop (m.2.1 + m.2.2))

/-- Total matched length of the gestalt recursion on `a` and `b`. -/
def gestaltTotal (a b : List Char) : ℕ :=
  gestaltTotalFuel a.length a b

/-- Modelled from the spec: `difflib.SequenceMatcher(None, a, b).ratio()`
(spec section 4.1), whose source is not part of this repository: twice the
total matched length divided by the sum of the two lengths, and `1.0` for
two empty strings (identical strings have ratio `1.0`). -/
def gestaltRatio (a b : List Char) : ℚ :=
  if a.length + b.length = 0 then 1
  else (2 * gestaltTotal a b : ℕ) / ((a.length + b.length : ℕ) : ℚ)

lemma matchLen_le_left (x y : List Char) : matchLen x y ≤ x.length := by
  induction x generalizing y with
  | nil => simp [matchLen]
  | cons c cs ih =>
    cases y with
    | nil => simp [matchLen]
    | cons d ds =>
      rw [matchLen]
      by_cases h : c = d
      · rw [if_pos h]
        simpa using ih ds
      · rw [if_neg h]
        simp

lemma matchLen_le_right (x y : List Char) : matchLen x y ≤ y.length := by
  induction x generalizing y with
  | nil => simp [matchLen]
  | cons c cs ih =>
    cases y with
    | nil => simp [matchLen]
    | cons d ds =>
      rw [matchLen]
      by_cases h : c = d
      · rw [if_pos h]
        simpa using ih ds
      · rw [if_neg h]
        simp

lemma matchLen_self (x : List Char) : matchLen x x = x.length := by
  induction x with
  | nil => rfl
  | cons c cs ih => simp [matchLen, ih]

lemma mem_lcsCands {a b : List Char} {c : ℕ × ℕ × ℕ} :
    c ∈ lcsCands a b ↔
      ∃ i j, i < a.length ∧ j < b.length ∧
        c = (i, j, matchLen (a.drop i) (b.drop j)) := by
  unfold lcsCands
  constructor
  · intro h
    rw [List.mem_flatMap] at h
    obtain ⟨i, hi, hc⟩ := h
    rw [List.mem_map] at hc
    obtain ⟨j, hj, hc⟩ := hc
    exact ⟨i, j, List.mem_range.mp hi, List.mem_range.mp hj, hc.symm⟩
  · rintro ⟨i, j, hi, hj, rfl⟩
    rw [List.mem_flatMap]
    exact ⟨i, List.mem_range.mpr hi, List.mem_map.mpr ⟨j, List.mem_range.mpr hj, rfl⟩⟩

lemma foldl_pick_ge_init (l : List (ℕ × ℕ × ℕ)) (acc : ℕ × ℕ × ℕ) :
    acc.2.2 ≤
      (l.foldl (fun best c => if best.2.2 < c.2.2 then c else best) acc).2.2 := by
  induction l generalizing acc with
  | nil => simp
  | cons d t ih =>
    rw [List.foldl_cons]
    refine le_trans ?_ (ih _)
    by_cases h : acc.2.2 < d.2.2
    · rw [if_pos h]
      exact le_of_lt h
    · rw [if_neg h]

lemma foldl_pick_ge_mem (l : List (ℕ × ℕ × ℕ)) (acc c : ℕ × ℕ × ℕ)
    (hc : c ∈ l) :
    c.2.2 ≤
      (l.foldl (fun best c => if best.2.2 < c.2.2 then c else best) acc).2.2 := by
  induction l generalizing acc with
  | nil => simp at hc
  | cons d t ih =>
    rw [List.foldl_cons]
    rcases List.mem_cons.mp hc with rfl | hct
    · refine le_trans ?_ (foldl_pick_ge_init _ _)
      by_cases h : acc.2.2 < c.2.2
      · rw [if_pos h]
      · rw [if_neg h]
        exact le_of_not_lt h
    · exact ih _ hct

lemma foldl_pick_mem_or (l : List (ℕ × ℕ × ℕ)) (acc : ℕ × ℕ × ℕ) :
    (l.foldl (fun best c => if best.2.2 < c.2.2 then c else best) acc) = acc ∨
      (l.foldl (fun best c => if best.2.2 < c.2.2 then c else best) acc) ∈ l := by
  induction l generalizing acc with
  | nil => exact Or.inl rfl
  | cons d t ih =>
    rw [List.foldl_cons]
    rcases ih (if acc.2.2 < d.2.2 then d else acc) with h | h
    · rw [h]
      by_cases hd : acc.2.2 < d.2.2
      · rw [if_pos hd]
        exact Or.inr (List.mem_cons_self _ _)
      · rw [if_neg hd]
        exact Or.inl rfl
    · exact Or.inr (List.mem_cons_of_mem _ h)

lemma find_longest_match_bounds {a b : List Char} {i j k : ℕ}
    (h : find_longest_match a b = (i, j, k)) (hk : k ≠ 0) :
    i + k ≤ a.length ∧ j + k ≤ b.length := by
  have hfp : find_longest_match a b = pickLongest (lcsCands a b) := rfl
  have hpm : pickLongest (lcsCands a b) = (0, 0, 0) ∨
      pickLongest (lcsCands a b) ∈ lcsCands a b := foldl_pick_mem_or _ _
  rcases hpm with h0 | hmem
  · rw [hfp, h0] at h
    cases h
    exact absurd rfl hk
  · rw [hfp] at h
    rw [h] at hmem
    obtain ⟨i2, j2, hi, hj, heq⟩ := mem_lcsCands.mp hmem
    simp only [Prod.mk.injEq] at heq
    obtain ⟨he1, he2, he3⟩ := heq
    have h1 := matchLen_le_left (a.drop i2) (b.drop j2)
    have h2 := matchLen_le_right (a.drop i2) (b.drop j2)
    rw [List.length_drop] at h1 h2
    omega

lemma find_longest_match_self {a : List Char} (ha : a ≠ []) :
    find_longest_match a a = (0, 0, a.length) := by
  have hlen : 0 < a.length := List.length_pos.mpr ha
  have hcand : (0, 0, matchLen a a) ∈ lcsCands a a :=
    mem_lcsCands.mpr ⟨0, 0, hlen, hlen, by simp⟩
  have hge : a.length ≤ (pickLongest (lcsCands a a)).2.2 := by
    have h0 := foldl_pick_ge_mem (lcsCands a a) (0, 0, 0) _ hcand
    rw [matchLen_self] at h0
    exact h0
  have hpm : pickLongest (lcsCands a a) = (0, 0, 0) ∨
      pickLongest (lcsCands a a) ∈ lcsCands a a := foldl_pick_mem_or _ _
  rcases hpm with h0 | hmem
  · rw [h0] at hge
    have h00 : a.length ≤ 0 := hge
    omega
  · obtain ⟨i2, j2, hi, hj, heq⟩ := mem_lcsCands.mp hmem
    have hge2 : a.length ≤ matchLen (a.drop i2) (a.drop j2) := by
      rw [heq] at hge
      exact hge
    have h1 := matchLen_le_left (a.drop i2) (a.drop j2)
    have h2 := matchLen_le_right (a.drop i2) (a.drop j2)
    rw [List.length_drop] at h1 h2
    have hi0 : i2 = 0 := by omega
    have hj0 : j2 = 0 := by omega
    show pickLongest (lcsCands a a) = (0, 0, a.length)
    rw [heq, hi0, hj0]
    simp [matchLen_self]

lemma gestaltTotalFuel_le (fuel : ℕ) (a b : List Char) :
    gestaltTotalFuel fuel a b ≤ a.length ∧
      gestaltTotalFuel fuel a b ≤ b.length := by
  induction fuel generalizing a b with
  | zero => simp [gestaltTotalFuel]
  | succ n ih =>
    rw [gestaltTotalFuel]
    rcases hm : find_longest_match a b with ⟨i, j, k⟩
    by_cases hk : k = 0
    · simp [hm, hk]
    · have hb := find_longest_match_bounds hm hk
      have ihL := ih (a.take i) (b.take j)
      have ihR := ih (a.drop (i + k)) (b.drop (j + k))
      simp only [hm]
      rw [if_neg (by simpa using hk)]
      simp only [List.length_take, List.length_drop] at ihL ihR
      constructor
      · omega
      · omega

lemma gestaltTotalFuel_nil (fuel : ℕ) (b : List Char) :
    gestaltTotalFuel fuel [] b = 0 := by
  cases fuel with
  | zero => rfl
  | succ n =>
    rw [gestaltTotalFuel]
    have : find_longest_match [] b = (0, 0, 0) := by
      rw [find_longest_match]
      have : lcsCands [] b = [] := by simp [lcsCands]
      rw [this]
      rfl
    rw [this]
    simp

lemma gestaltTotal_self {a : List Char} (ha : a ≠ []) :
    gestaltTotal a a = a.length := by
  rcases a with _ | ⟨c, t⟩
  · exact absurd rfl ha
  · rw [gestaltTotal, List.length_cons, gestaltTotalFuel,
      find_longest_match_self ha]
    rw [if_neg (by simp)]
    simp [gestaltTotalFuel_nil]

lemma gestaltRatio_nonneg (a b : List Char) : 0 ≤ gestaltRatio a b := by
  rw [gestaltRatio]
  by_cases h : a.length + b.length = 0
  · rw [if_pos h]
    norm_num
  · rw [if_neg h]
    positivity

lemma gestaltRatio_le_one (a b : List Char) : gestaltRatio a b ≤ 1 := by
  rw [gestaltRatio]
  by_cases h : a.length + b.length = 0
  · rw [if_pos h]
  · rw [if_neg h]
    rw [div_le_one (by positivity)]
    have h1 := (gestaltTotalFuel_le a.length a b).1
    have h2 := (gestaltTotalFuel_le a.length a b).2
    rw [← gestaltTotal] at h1 h2
    push_cast
    have : 2 * gestaltTotal a b ≤ a.length + b.length := by omega
    exact_mod_cast this

lemma gestaltRatio_self {a : List Char} (ha : a ≠ []) :
    gestaltRatio a a = 1 := by
  have hlen : 0 < a.length := List.length_pos.mpr ha
  rw [gestaltRatio, if_neg (by omega), gestaltTotal_self ha]
  rw [div_eq_one_iff_eq (by positivity)]
  push_cast
  ring

namespace SimilarityMatcher

/-- Model of `SimilarityMatcher.calculate_score` (src/app.py lines 136-148):
`SequenceMatcher(None, user_input.lower(), question.lower()).ratio()`. -/
def calculate_score (user_input : List Char) (faq_item : FAQItem) : ℚ :=
  gestaltRatio (lower user_input) (lower faq_item.question)

end SimilarityMatcher

/-- Model of `HybridMatcher` (src/app.py lines 180-202): the two weights, with the
constructor defaults `similarity_weight = 0.7`, `keyword_weight = 0.3`. -/
structure HybridMatcher where
  similarity_weight : ℚ := 0.7
  keyword_weight : ℚ := 0.3

namespace HybridMatcher

/-- Model of `HybridMatcher.calculate_score` (src/app.py lines 204-223):
`similarity_score * similarity_weight + keyword_score * keyword_weight`. -/
def calculate_score (m : HybridMatcher) (user_input : List Char)
    (faq_item : FAQItem) : ℚ :=
  SimilarityMatcher.calculate_score user_input faq_item * m.similarity_weight +
    KeywordMatcher.calculate_score user_input faq_item * m.keyword_weight

end HybridMatcher

lemma keyword_score_append_mono (q k : List Char) (it : FAQItem)
    (h : hasSubstr (lower q) k = true) :
    KeywordMatcher.calculate_score q it ≤
      KeywordMatcher.calculate_score q { it with keywords := it.keywords ++ [k] } := by
  unfold KeywordMatcher.calculate_score
  by_cases h0 : it.keywords = []
  · rw [if_pos h0, if_neg (by simp [h0])]
    positivity
  · rw [if_neg h0, if_neg (by simp)]
    have hlen : 0 < it.keywords.length := List.length_pos.mpr h0
    have hc : ({ it with keywords := it.keywords ++ [k]} : FAQItem).keywords.countP
        (fun k2 => hasSubstr (lower q) k2) =
        it.keywords.countP (fun k2 => hasSubstr (lower q) k2) + 1 := by
      show (it.keywords ++ [k]).countP _ = _
      rw [List.countP_append, List.countP_singleton]
      simp [h]
    rw [hc]
    have hl2 : ({ it with keywords := it.keywords ++ [k]} : FAQItem).keywords.length =
        it.keywords.length + 1 := by
      show (it.keywords ++ [k]).length = _
      simp
    rw [hl2]
    have hcle : it.keywords.countP (fun k2 => hasSubstr (lower q) k2) ≤
        it.keywords.length := List.countP_le_length _
    have hcq : ((it.keywords.countP fun k2 => hasSubstr (lower q) k2 : ℕ) : ℚ) ≤
        ((it.keywords.length : ℕ) : ℚ) := by exact_mod_cast hcle
    rw [div_le_div_iff₀ (by exact_mod_cast hlen) (by positivity)]
    push_cast
    nlinarith [hcq]

/-- C4: for every query and FAQ entry, the hybrid score is the linear
combination `similarity_weight * LexicalScore + keyword_weight * KeywordScore`
of the two sub-scores, for arbitrary caller-supplied weights, and the
constructor defaults are `similarity_weight = 0.7`, `keyword_weight = 0.3`. -/
theorem hybrid_score_formula (m : HybridMatcher) (u : List Char) (it : FAQItem) :
    m.calculate_score u it =
      m.similarity_weight * SimilarityMatcher.calculate_score u it +
        m.keyword_weight * KeywordMatcher.calculate_score u it
    ∧ ({} : HybridMatcher).similarity_weight = 0.7
    ∧ ({} : HybridMatcher).keyword_weight = 0.3 := by
  refine ⟨?_, rfl, rfl⟩
  rw [HybridMatcher.calculate_score]
  ring

/-- C5: the keyword-overlap score is the number of keywords occurring as
substrings of the case-folded query divided by the total number of keywords,
it is exactly 0 for an empty keyword set and lies in `[0, 1]` always. -/
theorem keyword_score_spec (q : List Char) (it : FAQItem) :
    (it.keywords = [] → KeywordMatcher.calculate_score q it = 0)
    ∧ (it.keywords ≠ [] →
        KeywordMatcher.calculate_score q it =
          ((it.keywords.countP fun k => hasSubstr (lower q) k : ℕ) : ℚ) /
            ((it.keywords.length : ℕ) : ℚ))
    ∧ 0 ≤ KeywordMatcher.calculate_score q it
    ∧ KeywordMatcher.calculate_score q it ≤ 1 := by
  unfold KeywordMatcher.calculate_score
  by_cases h : it.keywords = []
  · simp [h]
  · rw [if_neg h]
    refine ⟨fun hc => absurd hc h, fun _ => rfl, by positivity, ?_⟩
    rw [div_le_one (by exact_mod_cast List.length_pos.mpr h)]
    exact_mod_cast List.countP_le_length _

/-- C5 witness: concrete evaluation of the keyword-overlap score on a
non-empty keyword set. -/
theorem keyword_score_spec_witness :
    (⟨"x".toList, "y".toList, ["gps".toList]⟩ : FAQItem).keywords ≠ [] ∧
      KeywordMatcher.calculate_score "what about GPS".toList
          ⟨"x".toList, "y".toList, ["gps".toList]⟩ =
        (((⟨"x".toList, "y".toList, ["gps".toList]⟩ : FAQItem).keywords.countP
            fun k => hasSubstr (lower "what about GPS".toList) k : ℕ) : ℚ) /
          (((⟨"x".toList, "y".toList, ["gps".toList]⟩ : FAQItem).keywords.length : ℕ) : ℚ) :=
  ⟨by decide,
    (keyword_score_spec "what about GPS".toList
      ⟨"x".toList, "y".toList, ["gps".toList]⟩).2.1 (by decide)⟩

/-- C6: the lexical-similarity scorer is the gestalt pattern-matching ratio
of the two case-folded strings, its value always lies in `[0, 1]`, and it is
exactly 1 on two identical non-empty strings. -/
theorem similarity_score_spec (u : List Char) (it : FAQItem) (a : List Char) :
    SimilarityMatcher.calculate_score u it = gestaltRatio (lower u) (lower it.question)
    ∧ 0 ≤ SimilarityMatcher.calculate_score u it
    ∧ SimilarityMatcher.calculate_score u it ≤ 1
    ∧ (a ≠ [] → gestaltRatio (lower a) (lower a) = 1) :=
  ⟨rfl, gestaltRatio_nonneg _ _, gestaltRatio_le_one _ _,
    fun ha => gestaltRatio_self (by simpa [lower] using ha)⟩

/-- C6 witness: the self-similarity of a concrete non-empty string is 1. -/
theorem similarity_score_spec_witness :
    "drone".toList ≠ [] ∧
      gestaltRatio (lower "drone".toList) (lower "drone".toList) = 1 :=
  ⟨by decide,
    (similarity_score_spec "drone".toList ⟨"q".toList, "a".toList, []⟩
      "drone".toList).2.2.2 (by decide)⟩

/-- C7: extending an entry's keyword list with a keyword already contained
in the case-folded query does not decrease the entry's hybrid score
(with the default weights). -/
theorem hybrid_keyword_monotone (q : List Char) (it : FAQItem) (k : List Char)
    (h : hasSubstr (lower q) k = true) :
    ({} : HybridMatcher).calculate_score q it ≤
      ({} : HybridMatcher).calculate_score q
        { it with keywords := it.keywords ++ [k] } := by
  unfold HybridMatcher.calculate_score
  have hsim : SimilarityMatcher.calculate_score q
      { it with keywords := it.keywords ++ [k] } =
      SimilarityMatcher.calculate_score q it := rfl
  rw [hsim]
  have hw : (0 : ℚ) ≤ ({} : HybridMatcher).keyword_weight := by
    show (0 : ℚ) ≤ 0.3
    norm_num
  exact add_le_add_left
    (mul_le_mul_of_nonneg_right (keyword_score_append_mono q k it h) hw) _

/-- C7 witness: concrete instance with the query "gps" and the keyword
"gps" added to an entry with no keywords. -/
theorem hybrid_keyword_monotone_witness :
    hasSubstr (lower "gps".toList) "gps".toList = true ∧
      ({} : HybridMatcher).calculate_score "gps".toList
          ⟨"x".toList, "y".toList, []⟩ ≤
        ({} : HybridMatcher).calculate_score "gps".toList
          { (⟨"x".toList, "y".toList, []⟩ : FAQItem) with
              keywords := (⟨"x".toList, "y".toList, []⟩ : FAQItem).keywords ++ ["gps".toList] } :=
  ⟨by decide,
    hybrid_keyword_monotone "gps".toList ⟨"x".toList, "y".toList, []⟩
      "gps".toList (by decide)⟩

/-- The loop of `FAQDatabase.find_best_match` (src/app.py lines 356-367),
as explicit state passing: the accumulator is the pair
`(best_match, best_score)` and an entry replaces it exactly when its score
is strictly greater than the current best.  The matcher is passed as a
score function, mirroring the `MatcherStrategy` dependency injection. -/
def findBestAux (score : List Char → FAQItem → ℚ) (user_input : List Char) :
    List FAQItem → Option FAQItem × ℚ → Option FAQItem × ℚ
  | [], acc => acc
  | faq_item :: rest, (best_match, best_score) =>
    let s := score user_input faq_item
    if best_score < s then findBestAux score user_input rest (some faq_item, s)
    else findBestAux score user_input rest (best_match, best_score)

/-- Model of `FAQDatabase.find_best_match` (src/app.py lines 346-367): linear scan of
the catalogue starting from `best_match = None`, `best_score = 0.0`. -/
def find_best_match (score : List Char → FAQItem → ℚ) (faq_data : List FAQItem)
    (user_input : List Char) : Option FAQItem × ℚ :=
  findBestAux score user_input faq_data (none, 0)

lemma findBestAux_spec (score : List Char → FAQItem → ℚ) (input : List Char) :
    ∀ (l : List FAQItem) (bm : Option FAQItem) (bs : ℚ),
      (findBestAux score input l (bm, bs) = (bm, bs) ∧
        ∀ it ∈ l, score input it ≤ bs) ∨
      (∃ i : ℕ, ∃ h : i < l.length,
        (findBestAux score input l (bm, bs)).1 = some (l.get ⟨i, h⟩) ∧
        (findBestAux score input l (bm, bs)).2 = score input (l.get ⟨i, h⟩) ∧
        bs < (findBestAux score input l (bm, bs)).2 ∧
        (∀ it ∈ l, score input it ≤ (findBestAux score input l (bm, bs)).2) ∧
        ∀ j : ℕ, ∀ hj : j < l.length, j < i →
          score input (l.get ⟨j, hj⟩) < (findBestAux score input l (bm, bs)).2) := by
  intro l
  induction l with
  | nil =>
    intro bm bs
    left
    exact ⟨rfl, by simp⟩
  | cons x t ih =>
    intro bm bs
    by_cases hx : bs < score input x
    · have hstep : findBestAux score input (x :: t) (bm, bs) =
          findBestAux score input t (some x, score input x) := by
        simp only [findBestAux, if_pos hx]
      rcases ih (some x) (score input x) with ⟨heq, hall⟩ | ⟨i, hi, h1, h2, h3, h4, h5⟩
      · right
        refine ⟨0, by simp, ?_, ?_, ?_, ?_, ?_⟩
        · rw [hstep, heq]
          rfl
        · rw [hstep, heq]
          rfl
        · rw [hstep, heq]
          exact hx
        · intro it hit
          rw [hstep, heq]
          rcases List.mem_cons.mp hit with rfl | hmem
          · exact le_refl _
          · exact hall it hmem
        · intro j hj hj0
          omega
      · right
        refine ⟨i + 1, by simpa using hi, ?_, ?_, ?_, ?_, ?_⟩
        · rw [hstep, List.get_cons_succ]
          exact h1
        · rw [hstep, List.get_cons_succ]
          exact h2
        · rw [hstep]
          exact lt_trans hx h3
        · intro it hit
          rw [hstep]
          rcases List.mem_cons.mp hit with rfl | hmem
          · exact le_of_lt h3
          · exact h4 it hmem
        · intro j hj hji
          rw [hstep]
          cases j with
          | zero =>
            exact h3
          | succ j0 =>
            rw [List.get_cons_succ]
            exact h5 j0 (by simpa using hj) (by omega)
    · have hstep : findBestAux score input (x :: t) (bm, bs) =
          findBestAux score input t (bm, bs) := by
        simp only [findBestAux, if_neg hx]
      rcases ih bm bs with ⟨heq, hall⟩ | ⟨i, hi, h1, h2, h3, h4, h5⟩
      · left
        refine ⟨by rw [hstep, heq], ?_⟩
        intro it hit
        rcases List.mem_cons.mp hit with rfl | hmem
        · exact le_of_not_lt hx
        · exact hall it hmem
      · right
        refine ⟨i + 1, by simpa using hi, ?_, ?_, ?_, ?_, ?_⟩
        · rw [hstep, List.get_cons_succ]
          exact h1
        · rw [hstep, List.get_cons_succ]
          exact h2
        · rw [hstep]
          exact h3
        · intro it hit
          rw [hstep]
          rcases List.mem_cons.mp hit with rfl | hmem
          · exact le_trans (le_of_not_lt hx) (le_of_lt h3)
          · exact h4 it hmem
        · intro j hj hji
          rw [hstep]
          cases j with
          | zero =>
            exact lt_of_le_of_lt (le_of_not_lt hx) h3
          | succ j0 =>
            rw [List.get_cons_succ]
            exact h5 j0 (by simpa using hj) (by omega)

/-- Model of `FAQDatabase.HELPLINE_MESSAGE` (src/app.py lines 328-331). -/
def HELPLINE_MESSAGE : List Char :=
  ("I'm not trained to answer this question yet. " ++
    "Please visit https://www.comsats.edu.pk/ for more details.").toList

/-- Model of `FAQDatabase.CONFIDENCE_THRESHOLD` (src/app.py line 332). -/
def CONFIDENCE_THRESHOLD : ℚ := 0.4

/-- The dictionary returned by `FAQDatabase.get_response`
(src/app.py lines 381-392): `question` is `None` in the fallback branch. -/
structure ResponseData where
  answer : List Char
  confidence : ℚ
  question : Option (List Char)
  deriving DecidableEq, Repr

/-- Model of `FAQDatabase.get_response` (src/app.py lines 369-392): answer branch
when a match was found (`if match`) and its confidence is at least
`CONFIDENCE_THRESHOLD` (`confidence >= self.CONFIDENCE_THRESHOLD`),
fallback branch otherwise. -/
def get_response (score : List Char → FAQItem → ℚ) (faq_data : List FAQItem)
    (user_input : List Char) : ResponseData :=
  let r := find_best_match score faq_data user_input
  match r.1 with
  | some m =>
    if CONFIDENCE_THRESHOLD ≤ r.2 then
      { answer := m.answer, confidence := r.2, question := some m.question }
    else
      { answer := HELPLINE_MESSAGE, confidence := r.2, question := none }
  | none =>
    { answer := HELPLINE_MESSAGE, confidence := r.2, question := none }

/-- The validation-failure message of `ChatbotAPI.process_query`
(src/app.py line 442), formatted by `ErrorResponseHandler` with
`status = "error"`. -/
def ERROR_MESSAGE : List Char := "Please provide a question.".toList

/-- Result of `ChatbotAPI.process_query`: either the error dictionary
produced by `ErrorResponseHandler` (`{"response": ..., "status": "error"}`)
or the dictionary produced by the injected success handler. -/
inductive ProcResult (R : Type) where
  | error (response : List Char)
  | ok (r : R)
  deriving DecidableEq, Repr

/-- Model of `ChatbotAPI.process_query` (src/app.py lines 428-449): validate the
input, answer with the error dictionary if validation fails, otherwise
strip the input, resolve it through `get_response` and format the result
with the injected response handler `fmt`. -/
def process_query {R : Type} (fmt : ResponseData → R)
    (score : List Char → FAQItem → ℚ) (faq_data : List FAQItem)
    (user_input : List Char) : ProcResult R :=
  if validate_input user_input then
    ProcResult.ok (fmt (get_response score faq_data (pyStrip user_input)))
  else
    ProcResult.error ERROR_MESSAGE

/-- Model of `ChatbotAPI.process_query` with the catalogue as explicit state:
the method only reads `self.faq_data` and assigns no attribute, so the
state-passing translation returns the catalogue unchanged. -/
def process_query_state {R : Type} (fmt : ResponseData → R)
    (score : List Char → FAQItem → ℚ) (faq_data : List FAQItem)
    (user_input : List Char) : ProcResult R × List FAQItem :=
  (process_query fmt score faq_data user_input, faq_data)

lemma validate_input_eq_false_of_all_space {q : List Char}
    (hq : ∀ c ∈ q, isPySpace c = true) : validate_input q = false := by
  cases hv : validate_input q with
  | false => rfl
  | true =>
    exact absurd (pyStrip_eq_nil_iff.mpr hq) (validate_input_eq_true_iff.mp hv)

/-- C1: `get_response` returns the matched entry's answer, question and
confidence exactly when a match was found and its score is at least the
inclusive `CONFIDENCE_THRESHOLD = 0.4`; in every other case it returns the
helpline message, no question, and the rejected candidate's score. -/
theorem get_response_threshold_spec (score : List Char → FAQItem → ℚ)
    (faq_data : List FAQItem) (input : List Char) (rm : Option FAQItem) (rs : ℚ)
    (hr : find_best_match score faq_data input = (rm, rs)) :
    CONFIDENCE_THRESHOLD = 0.4
    ∧ (∀ m, rm = some m → CONFIDENCE_THRESHOLD ≤ rs →
        get_response score faq_data input =
          { answer := m.answer, confidence := rs, question := some m.question })
    ∧ (∀ m, rm = some m → rs < CONFIDENCE_THRESHOLD →
        get_response score faq_data input =
          { answer := HELPLINE_MESSAGE, confidence := rs, question := none })
    ∧ (rm = none →
        get_response score faq_data input =
          { answer := HELPLINE_MESSAGE, confidence := rs, question := none }) := by
  refine ⟨rfl, ?_, ?_, ?_⟩
  · intro m hm hth
    simp only [get_response, hr, hm]
    rw [if_pos hth]
  · intro m hm hlt
    simp only [get_response, hr, hm]
    rw [if_neg (not_le.mpr hlt)]
  · intro hm
    simp only [get_response, hr, hm]

/-- C1 witness: a catalogue with one entry scored 1 by a constant matcher
produces the answer branch at a confidence above the threshold. -/
theorem get_response_threshold_spec_witness :
    find_best_match (fun _ _ => 1) [⟨"q".toList, "a".toList, []⟩] "x".toList
        = (some ⟨"q".toList, "a".toList, []⟩, 1)
    ∧ get_response (fun _ _ => 1) [⟨"q".toList, "a".toList, []⟩] "x".toList =
        { answer := "a".toList, confidence := 1, question := some "q".toList } := by
  have hr : find_best_match (fun _ _ => 1) [⟨"q".toList, "a".toList, []⟩] "x".toList
      = (some ⟨"q".toList, "a".toList, []⟩, 1) := by
    simp [find_best_match, findBestAux]
  exact ⟨hr,
    (get_response_threshold_spec (fun _ _ => 1) [⟨"q".toList, "a".toList, []⟩]
        "x".toList _ _ hr).2.1 ⟨"q".toList, "a".toList, []⟩ rfl
      (by rw [CONFIDENCE_THRESHOLD]; norm_num)⟩

/-- C2: `find_best_match` returns `(none, 0)` on the empty catalogue, the
best entry is only replaced by a strictly greater score, the returned score
bounds every entry's score, and the returned entry is the earliest entry
attaining the maximum (all strictly earlier entries score strictly less). -/
theorem find_best_match_scan_spec (score : List Char → FAQItem → ℚ)
    (faq_data : List FAQItem) (input : List Char) (rm : Option FAQItem) (rs : ℚ)
    (hr : find_best_match score faq_data input = (rm, rs)) :
    (faq_data = [] → rm = none ∧ rs = 0)
    ∧ (rm = none → rs = 0 ∧ ∀ it ∈ faq_data, score input it ≤ 0)
    ∧ (∀ m, rm = some m →
        0 < rs ∧ score input m = rs ∧
        (∀ it ∈ faq_data, score input it ≤ rs) ∧
        ∃ i : ℕ, ∃ h : i < faq_data.length,
          faq_data.get ⟨i, h⟩ = m ∧
          ∀ j : ℕ, ∀ hj : j < faq_data.length, j < i →
            score input (faq_data.get ⟨j, hj⟩) < rs) := by
  have hspec := findBestAux_spec score input faq_data none 0
  rw [find_best_match] at hr
  rcases hspec with ⟨heq, hall⟩ | ⟨i, hi, h1, h2, h3, h4, h5⟩
  · cases heq.symm.trans hr
    refine ⟨fun _ => ⟨rfl, rfl⟩, fun _ => ⟨rfl, hall⟩, ?_⟩
    intro m hm
    simp at hm
  · rw [hr] at h1 h2 h3 h4 h5
    refine ⟨?_, ?_, ?_⟩
    · intro h0
      subst h0
      simp at hi
    · intro hm
      rw [hm] at h1
      simp at h1
    · intro m hm
      rw [hm] at h1
      have hgm : faq_data.get ⟨i, hi⟩ = m := Option.some.inj h1.symm
      refine ⟨h3, ?_, h4, i, hi, hgm, h5⟩
      rw [← hgm]
      exact h2.symm

/-- C2 witness: two entries scored equally by a constant matcher; the first
entry wins the tie. -/
theorem find_best_match_scan_spec_witness :
    find_best_match (fun _ _ => 1)
        [⟨"q1".toList, "a1".toList, []⟩, ⟨"q2".toList, "a2".toList, []⟩] "x".toList
      = (some ⟨"q1".toList, "a1".toList, []⟩, 1)
    ∧ (0 < (1 : ℚ) ∧ (fun (_ : List Char) (_ : FAQItem) => (1 : ℚ)) "x".toList
          ⟨"q1".toList, "a1".toList, []⟩ = 1 ∧
        (∀ it ∈ [(⟨"q1".toList, "a1".toList, []⟩ : FAQItem),
            ⟨"q2".toList, "a2".toList, []⟩],
          (fun (_ : List Char) (_ : FAQItem) => (1 : ℚ)) "x".toList it ≤ 1) ∧
        ∃ i : ℕ,
          ∃ h : i < [(⟨"q1".toList, "a1".toList, []⟩ : FAQItem),
              ⟨"q2".toList, "a2".toList, []⟩].length,
          [(⟨"q1".toList, "a1".toList, []⟩ : FAQItem),
              ⟨"q2".toList, "a2".toList, []⟩].get ⟨i, h⟩ =
            ⟨"q1".toList, "a1".toList, []⟩ ∧
          ∀ j : ℕ, ∀ hj : j < [(⟨"q1".toList, "a1".toList, []⟩ : FAQItem),
              ⟨"q2".toList, "a2".toList, []⟩].length, j < i →
            (fun (_ : List Char) (_ : FAQItem) => (1 : ℚ)) "x".toList
              ([(⟨"q1".toList, "a1".toList, []⟩ : FAQItem),
                ⟨"q2".toList, "a2".toList, []⟩].get ⟨j, hj⟩) < 1) := by
  have hr : find_best_match (fun _ _ => 1)
      [⟨"q1".toList, "a1".toList, []⟩, ⟨"q2".toList, "a2".toList, []⟩] "x".toList
      = (some ⟨"q1".toList, "a1".toList, []⟩, 1) := by
    simp [find_best_match, findBestAux]
  exact ⟨hr,
    (find_best_match_scan_spec (fun _ _ => 1)
        [⟨"q1".toList, "a1".toList, []⟩, ⟨"q2".toList, "a2".toList, []⟩]
        "x".toList _ _ hr).2.2 ⟨"q1".toList, "a1".toList, []⟩ rfl⟩

/-- C3: a query that is empty or only whitespace fails validation, makes
`process_query` return the fixed error result for every matcher and every
catalogue (the matching engine is never consulted), and that error result
is distinct from every success result and its message is not the helpline
fallback message. -/
theorem process_query_validation_spec {R : Type} (fmt : ResponseData → R)
    (score : List Char → FAQItem → ℚ) (faq_data : List FAQItem) (q : List Char)
    (hq : ∀ c ∈ q, isPySpace c = true) :
    validate_input q = false
    ∧ process_query fmt score faq_data q = ProcResult.error ERROR_MESSAGE
    ∧ (∀ (score2 : List Char → FAQItem → ℚ) (faq2 : List FAQItem),
        process_query fmt score2 faq2 q = ProcResult.error ERROR_MESSAGE)
    ∧ (∀ r : R, (ProcResult.error ERROR_MESSAGE : ProcResult R) ≠ ProcResult.ok r)
    ∧ ERROR_MESSAGE ≠ HELPLINE_MESSAGE := by
  have hv : validate_input q = false := validate_input_eq_false_of_all_space hq
  refine ⟨hv, ?_, ?_, ?_, ?_⟩
  · simp [process_query, hv]
  · intro score2 faq2
    simp [process_query, hv]
  · intro r h
    exact ProcResult.noConfusion h
  · decide

/-- C3 witness: the whitespace-only query consisting of two spaces and a
tab, with the identity formatter and an empty catalogue. -/
theorem process_query_validation_spec_witness :
    (∀ c ∈ " \t ".toList, isPySpace c = true)
    ∧ process_query (fun d => d) (fun _ _ => 0) [] " \t ".toList =
        ProcResult.error ERROR_MESSAGE :=
  ⟨by decide,
    (process_query_validation_spec (fun d => d) (fun _ _ => 0) [] " \t ".toList
      (by decide)).2.1⟩

/-- C8: `process_query` is a pure function of its inputs: it leaves the
catalogue unchanged, and a second invocation on the state left by the first
one returns the same result and the same catalogue. -/
theorem process_query_pure_spec {R : Type} (fmt : ResponseData → R)
    (score : List Char → FAQItem → ℚ) (faq_data : List FAQItem)
    (q : List Char) :
    (process_query_state fmt score faq_data q).2 = faq_data
    ∧ (process_query_state fmt score
          ((process_query_state fmt score faq_data q).2) q).1 =
        (process_query_state fmt score faq_data q).1
    ∧ (process_query_state fmt score
          ((process_query_state fmt score faq_data q).2) q).2 = faq_data :=
  ⟨rfl, rfl, rfl⟩

/-- C9: when every catalogue entry scores exactly 0 on the query, the best
entry is never replaced (the comparison is strict), so `find_best_match`
returns `(none, 0)` even on a non-empty catalogue and `get_response` falls
back to the helpline message with confidence 0. -/
theorem find_best_match_zero_scores (score : List Char → FAQItem → ℚ)
    (faq_data : List FAQItem) (input : List Char)
    (hne : faq_data ≠ [])
    (h0 : ∀ it ∈ faq_data, score input it = 0) :
    find_best_match score faq_data input = (none, 0)
    ∧ get_response score faq_data input =
        { answer := HELPLINE_MESSAGE, confidence := 0, question := none } := by
  have hfb : find_best_match score faq_data input = (none, 0) := by
    rw [find_best_match]
    have haux : ∀ (l : List FAQItem) (bm : Option FAQItem),
        (∀ it ∈ l, score input it = 0) →
        findBestAux score input l (bm, 0) = (bm, 0) := by
      intro l
      induction l with
      | nil =>
        intro bm h
        rfl
      | cons x t ih =>
        intro bm h
        have hx : score input x = 0 := h x (List.mem_cons_self _ _)
        simp only [findBestAux]
        rw [if_neg (by rw [hx]; exact lt_irrefl 0)]
        exact ih bm fun it hit => h it (List.mem_cons_of_mem _ hit)
    exact haux faq_data none h0
  refine ⟨hfb, ?_⟩
  simp only [get_response, hfb]

/-- C9 witness: a one-entry catalogue whose hybrid score on the query
"zzz" is exactly 0 (no common characters, no matching keyword). -/
theorem find_best_match_zero_scores_witness :
    ([(⟨"aaa".toList, "ans".toList, ["bbb".toList]⟩ : FAQItem)] ≠ [])
    ∧ (∀ it ∈ [(⟨"aaa".toList, "ans".toList, ["bbb".toList]⟩ : FAQItem)],
        HybridMatcher.calculate_score {} "zzz".toList it = 0)
    ∧ find_best_match (HybridMatcher.calculate_score {})
        [⟨"aaa".toList, "ans".toList, ["bbb".toList]⟩] "zzz".toList = (none, 0) := by
  have h0 : ∀ it ∈ [(⟨"aaa".toList, "ans".toList, ["bbb".toList]⟩ : FAQItem)],
      HybridMatcher.calculate_score {} "zzz".toList it = 0 := by
    intro it hit
    rw [List.mem_singleton] at hit
    subst hit
    have hsim : SimilarityMatcher.calculate_score "zzz".toList
        ⟨"aaa".toList, "ans".toList, ["bbb".toList]⟩ = 0 := by
      rw [SimilarityMatcher.calculate_score, gestaltRatio, if_neg (by decide)]
      have h1 : gestaltTotal (lower "zzz".toList)
          (lower ((⟨"aaa".toList, "ans".toList, ["bbb".toList]⟩ : FAQItem).question))
          = 0 := by decide
      rw [h1]
      norm_num
    have hkw : KeywordMatcher.calculate_score "zzz".toList
        ⟨"aaa".toList, "ans".toList, ["bbb".toList]⟩ = 0 := by
      rw [KeywordMatcher.calculate_score, if_neg (by decide)]
      have h2 : ((⟨"aaa".toList, "ans".toList, ["bbb".toList]⟩ : FAQItem).keywords.countP
          fun k => hasSubstr (lower "zzz".toList) k) = 0 := by decide
      rw [h2]
      norm_num
    rw [HybridMatcher.calculate_score, hsim, hkw]
    norm_num
  exact ⟨by decide, h0,
    (find_best_match_zero_scores (HybridMatcher.calculate_score {})
      [⟨"aaa".toList, "ans".toList, ["bbb".toList]⟩] "zzz".toList
      (by decide) h0).1⟩

/-- C10: for a query with at least one non-whitespace character,
`process_query` returns the same result on the query and on its stripped
form: surrounding whitespace never changes the outcome. -/
theorem process_query_strip_invariant {R : Type} (fmt : ResponseData → R)
    (score : List Char → FAQItem → ℚ) (faq_data : List FAQItem) (q : List Char)
    (h : (q.any fun c => !(isPySpace c)) = true) :
    process_query fmt score faq_data q =
      process_query fmt score faq_data (pyStrip q) := by
  have hq : pyStrip q ≠ [] := by
    rw [Ne, pyStrip_eq_nil_iff]
    rw [List.any_eq_true] at h
    obtain ⟨c, hc, hpc⟩ := h
    intro hall
    have := hall c hc
    rw [this] at hpc
    simp at hpc
  have h1 : validate_input q = true := validate_input_eq_true_iff.mpr hq
  have h2 : validate_input (pyStrip q) = true := by
    rw [validate_input_eq_true_iff, pyStrip_idem]
    exact hq
  rw [process_query, process_query, if_pos h1, if_pos h2, pyStrip_idem]

/-- C10 witness: the query " gps " with surrounding spaces, the identity
formatter and an empty catalogue. -/
theorem process_query_strip_invariant_witness :
    ((" gps ".toList.any fun c => !(isPySpace c)) = true)
    ∧ process_query (fun d => d) (fun _ _ => 0) [] " gps ".toList =
        process_query (fun d => d) (fun _ _ => 0) [] (pyStrip " gps ".toList) :=
  ⟨by decide,
    process_query_strip_invariant (fun d => d) (fun _ _ => 0) [] " gps ".toList
      (by decide)⟩
